import Mathlib

/-!
Shallow embedding of `pdsl_core/src/storage/alloc/cc_alloc.rs`: the
cell/chunk contract-storage allocator `CellChunkAlloc` and its
`Allocator` implementation (`alloc`/`dealloc`).

The `Key` type and the recycling index store `storage::Stash` live in
other files of the repository and are modelled here from their interface
description; every function of `cc_alloc.rs` itself is translated
directly.  Fatal failures (`assert!`, `expect`) are embedded as
`Except.error` values carrying the corresponding error kind.
-/

/-- Modelled from the spec: `Key` (not under `src/`) is an opaque, totally
ordered address supporting addition of 32-bit and 64-bit offsets and
subtraction of two keys with checked downcasts; embedded as a natural
number with exact arithmetic. -/
abbrev Key := Nat

/-- Modelled from the spec: `storage::Stash<()>` (the `IndexStash`, not
under `src/`), a recycling index assigner.  `freeList` holds the
previously freed indices, most recently freed first; `nextFresh` is the
smallest never-handed-out index; `occupied` lists the currently occupied
indices. -/
structure Stash where
  freeList : List Nat
  nextFresh : Nat
  occupied : List Nat
deriving DecidableEq

/-- Modelled from the spec: a freshly constructed stash occupies nothing. -/
def Stash.new : Stash :=
  ⟨[], 0, []⟩

/-- Modelled from the spec: `put(())` returns a previously freed index when
one exists (most recently freed first), otherwise a fresh one, and marks it
occupied. -/
def Stash.put (s : Stash) : Nat × Stash :=
  match s.freeList with
  | [] => (s.nextFresh, ⟨[], s.nextFresh + 1, s.nextFresh :: s.occupied⟩)
  | i :: rest => (i, ⟨rest, s.nextFresh, i :: s.occupied⟩)

/-- Modelled from the spec: `take(index)` removes the index, signalling
`none` ("absent") when the index is not currently occupied. -/
def Stash.take (s : Stash) (i : Nat) : Option Stash :=
  if i ∈ s.occupied then
    some ⟨i :: s.freeList, s.nextFresh, s.occupied.erase i⟩
  else
    none

/-- `CellChunkAlloc` (cc_alloc.rs lines 42-51): two index stashes and the
two base offsets. -/
structure CellChunkAlloc where
  cells : Stash
  chunks : Stash
  cells_off : Key
  chunks_off : Key
deriving DecidableEq

/-- The fatal failure kinds of `dealloc` (`assert!` and `expect` calls in
the source, named as in the error taxonomy of the spec). -/
inductive AllocError where
  | KeyOutOfRange
  | IndexOverflow
  | DoubleFreeOrUnknownKey
deriving DecidableEq

/-- Modelled from the spec: the checked downcast of a key difference to a
32-bit unsigned integer (`try_to_u32`). -/
def try_to_u32 (n : Nat) : Option Nat :=
  if n < 2 ^ 32 then some n else none

/-- Modelled from the spec: the checked downcast of a key difference to a
64-bit unsigned integer (`try_to_u64`). -/
def try_to_u64 (n : Nat) : Option Nat :=
  if n < 2 ^ 64 then some n else none

/-- `cells_offset_key` (cc_alloc.rs 91-93). -/
def CellChunkAlloc.cells_offset_key (a : CellChunkAlloc) : Key :=
  a.cells_off

/-- `chunks_offset_key` (cc_alloc.rs 101-103). -/
def CellChunkAlloc.chunks_offset_key (a : CellChunkAlloc) : Key :=
  a.chunks_off

/-- `cell_index_to_key` (cc_alloc.rs 162-164): `cells_off + index`. -/
def CellChunkAlloc.cell_index_to_key (a : CellChunkAlloc) (index : Nat) : Key :=
  a.cells_offset_key + index

/-- `key_to_cell_index` (cc_alloc.rs 169-177): checked 32-bit downcast of
`key - cells_off`; the `expect` on failure is the `IndexOverflow` error. -/
def CellChunkAlloc.key_to_cell_index (a : CellChunkAlloc) (key : Key) : Option Nat :=
  try_to_u32 (key - a.cells_offset_key)

/-- `chunk_index_to_key` (cc_alloc.rs 182-185): `chunks_off + 2^32 * index`. -/
def CellChunkAlloc.chunk_index_to_key (a : CellChunkAlloc) (index : Nat) : Key :=
  a.chunks_offset_key + 2 ^ 32 * index

/-- `key_to_chunk_index` (cc_alloc.rs 190-199): note the difference is taken
against `cells_off`, not `chunks_off`; the final `as u32` cast of the
64-bit value shifted right by 32 is the `% 2 ^ 32`. -/
def CellChunkAlloc.key_to_chunk_index (a : CellChunkAlloc) (key : Key) : Option Nat :=
  match try_to_u64 (key - a.cells_offset_key) with
  | some index => some ((index >>> 32) % 2 ^ 32)
  | none => none

/-- `alloc_cell` (cc_alloc.rs 106-115): put into the cells stash, convert
the returned index to a key (the `log::info!` call has no effect on state). -/
def CellChunkAlloc.alloc_cell (a : CellChunkAlloc) : Key × CellChunkAlloc :=
  let p := a.cells.put
  (a.cell_index_to_key p.1, { a with cells := p.2 })

/-- `alloc_chunk` (cc_alloc.rs 118-127). -/
def CellChunkAlloc.alloc_chunk (a : CellChunkAlloc) : Key × CellChunkAlloc :=
  let p := a.chunks.put
  (a.chunk_index_to_key p.1, { a with chunks := p.2 })

/-- `dealloc_cell` (cc_alloc.rs 130-142): recover the cell index and take it
from the cells stash; the `expect` on an absent index is the
`DoubleFreeOrUnknownKey` error. -/
def CellChunkAlloc.dealloc_cell (a : CellChunkAlloc) (key : Key) :
    Except AllocError CellChunkAlloc :=
  match a.key_to_cell_index key with
  | none => Except.error AllocError.IndexOverflow
  | some index =>
    match a.cells.take index with
    | none => Except.error AllocError.DoubleFreeOrUnknownKey
    | some s => Except.ok { a with cells := s }

/-- `dealloc_chunk` (cc_alloc.rs 145-157). -/
def CellChunkAlloc.dealloc_chunk (a : CellChunkAlloc) (key : Key) :
    Except AllocError CellChunkAlloc :=
  match a.key_to_chunk_index key with
  | none => Except.error AllocError.IndexOverflow
  | some index =>
    match a.chunks.take index with
    | none => Except.error AllocError.DoubleFreeOrUnknownKey
    | some s => Except.ok { a with chunks := s }

/-- `Allocator::alloc` (cc_alloc.rs 203-221).  In release semantics a zero
size only emits a `log::warn!` (the `debug_assert!(size != 0)` is compiled
out) and falls through to the `size <= 1` cell branch. -/
def CellChunkAlloc.alloc (a : CellChunkAlloc) (size : Nat) : Key × CellChunkAlloc :=
  if size ≤ 1 then a.alloc_cell else a.alloc_chunk

/-- `Allocator::dealloc` (cc_alloc.rs 223-240): the failing
`assert!(key >= cells_off)` is the `KeyOutOfRange` error; otherwise keys
below `chunks_off` are cell keys and the rest chunk keys. -/
def CellChunkAlloc.dealloc (a : CellChunkAlloc) (key : Key) :
    Except AllocError CellChunkAlloc :=
  if key < a.cells_offset_key then Except.error AllocError.KeyOutOfRange
  else if key < a.chunks_offset_key then a.dealloc_cell key
  else a.dealloc_chunk key

/-- Modelled from the spec: `new_using_alloc` (cc_alloc.rs 66-83) reserves
the two base offsets from a bootstrap forward allocator (not under `src/`)
that hands out consecutive spans, advancing by the requested size.  Both
reservations request `u32::max_value() = 2^32 - 1` slots, hence
`chunks_off = cells_off + (2^32 - 1)`; `base` is wherever the bootstrap
allocator stands after the two stash constructions, and both stashes start
empty. -/
def CellChunkAlloc.new_using_alloc (base : Key) : CellChunkAlloc :=
  ⟨Stash.new, Stash.new, base, base + (2 ^ 32 - 1)⟩

/-- Runs a list of `alloc` requests in order, collecting the returned keys
and threading the allocator state. -/
def CellChunkAlloc.allocRun (a : CellChunkAlloc) : List Nat → List Key × CellChunkAlloc
  | [] => ([], a)
  | size :: rest =>
    let p := a.alloc size
    let q := p.2.allocRun rest
    (p.1 :: q.1, q.2)

/-- The number of requests in a run that the allocator classifies as
cell-sized (`size <= 1`). -/
def cellCount (sizes : List Nat) : Nat :=
  sizes.countP (fun s => decide (s ≤ 1))

/-- The number of requests in a run that the allocator classifies as
chunk-sized (`size > 1`). -/
def chunkCount (sizes : List Nat) : Nat :=
  sizes.countP (fun s => decide (1 < s))

/-- The keys produced by a run of requests starting from base offset `B`
(so `cells_off = B` and `chunks_off = B + (2^32 - 1)` as constructed) when
the next fresh cell index is `c` and the next fresh chunk index is `d`. -/
def runKeys (B : Key) : Nat → Nat → List Nat → List Key
  | _, _, [] => []
  | c, d, s :: rest =>
    if s ≤ 1 then (B + c) :: runKeys B (c + 1) d rest
    else (B + (2 ^ 32 - 1) + 2 ^ 32 * d) :: runKeys B c (d + 1) rest

/-- C2: for every cell index `i` that fits in 32 bits, recovering the index
from a freshly produced cell key yields `i` again:
`key_to_cell_index (cell_index_to_key i) = i`. -/
theorem C2_cell_roundtrip (a : CellChunkAlloc) (i : Nat) (h : i < 2 ^ 32) :
    a.key_to_cell_index (a.cell_index_to_key i) = some i := by
  simp only [CellChunkAlloc.key_to_cell_index, CellChunkAlloc.cell_index_to_key,
    CellChunkAlloc.cells_offset_key, try_to_u32, Nat.add_sub_cancel_left]
  rw [if_pos h]

theorem C2_cell_roundtrip_witness :
    (3 : Nat) < 2 ^ 32 ∧
      (CellChunkAlloc.new_using_alloc 0).key_to_cell_index
        ((CellChunkAlloc.new_using_alloc 0).cell_index_to_key 3) = some 3 :=
  ⟨by decide, C2_cell_roundtrip (CellChunkAlloc.new_using_alloc 0) 3 (by decide)⟩

/-- C4: `alloc size` performs a cell allocation exactly when `size ≤ 1` and
a chunk allocation when `size > 1`; beyond this split the numeric value of
`size` has no effect: `alloc s1 = alloc s2` whenever `1 < s1` and `1 < s2`. -/
theorem C4_size_classification (a : CellChunkAlloc) (s1 s2 : Nat)
    (h1 : 1 < s1) (h2 : 1 < s2) (s : Nat) :
    a.alloc s = (if s ≤ 1 then a.alloc_cell else a.alloc_chunk) ∧
      a.alloc s1 = a.alloc s2 := by
  refine ⟨rfl, ?_⟩
  unfold CellChunkAlloc.alloc
  rw [if_neg (by omega), if_neg (by omega)]

theorem C4_size_classification_witness :
    (CellChunkAlloc.new_using_alloc 0).alloc 1 =
      (if (1 : Nat) ≤ 1 then (CellChunkAlloc.new_using_alloc 0).alloc_cell
        else (CellChunkAlloc.new_using_alloc 0).alloc_chunk) ∧
      (CellChunkAlloc.new_using_alloc 0).alloc 2 =
        (CellChunkAlloc.new_using_alloc 0).alloc 3 :=
  C4_size_classification (CellChunkAlloc.new_using_alloc 0) 2 3
    (by decide) (by decide) 1

/-- C5: the key returned by `alloc` is `cells_off + index` with
`index = cells.put(())` on the cell path, and `chunks_off + index * 2^32`
with `index = chunks.put(())` on the chunk path. -/
theorem C5_key_arithmetic (a : CellChunkAlloc) (size : Nat) :
    (a.alloc size).1 =
      if size ≤ 1 then a.cells_off + (a.cells.put).1
      else a.chunks_off + (a.chunks.put).1 * 2 ^ 32 := by
  by_cases h : size ≤ 1 <;>
    simp [CellChunkAlloc.alloc, CellChunkAlloc.alloc_cell, CellChunkAlloc.alloc_chunk,
      CellChunkAlloc.cell_index_to_key, CellChunkAlloc.chunk_index_to_key,
      CellChunkAlloc.cells_offset_key, CellChunkAlloc.chunks_offset_key, h,
      Nat.mul_comm]

/-- C9: evidence for the zero-size defect: in release semantics `alloc 0`
is exactly `alloc 1` — on a fresh allocator it returns the key `cells_off`
and marks cell index 0 occupied — instead of failing with a zero-size
error and leaving the state unchanged as the (corrected) contract demands;
the code's own `debug_assert!(size != 0)` shows the intent. -/
theorem C9_zero_size_allocates (a : CellChunkAlloc) :
    a.alloc 0 = a.alloc 1 ∧
      ((CellChunkAlloc.new_using_alloc 0).alloc 0).1 = 0 ∧
      ((CellChunkAlloc.new_using_alloc 0).alloc 0).2 ≠
        CellChunkAlloc.new_using_alloc 0 :=
  ⟨rfl, rfl, by decide⟩

/-- C1: with the offsets as constructed (`chunks_off = cells_off + (2^32 - 1)`),
recovering the index from a freshly produced chunk key yields the index
again, `key_to_chunk_index (chunk_index_to_key i) = i`, even though the
production adds relative to `chunks_off` while the recovery subtracts
`cells_off`: the offset difference is below `2^32`, so it vanishes under
the right shift by 32. -/
theorem C1_chunk_roundtrip (base : Key) (i : Nat) (h : i < 2 ^ 32) :
    (CellChunkAlloc.new_using_alloc base).key_to_chunk_index
      ((CellChunkAlloc.new_using_alloc base).chunk_index_to_key i) = some i := by
  have hpos : 0 < 2 ^ 32 := by positivity
  have hmul : 2 ^ 32 * i ≤ 2 ^ 32 * (2 ^ 32 - 1) :=
    Nat.mul_le_mul_left _ (by omega)
  have h64 : 2 ^ 32 - 1 + 2 ^ 32 * i < 2 ^ 64 := by
    have hord : (2 : Nat) ^ 64 = 2 ^ 32 * 2 ^ 32 := by norm_num
    omega
  have hdiv : (2 ^ 32 - 1 + 2 ^ 32 * i) >>> 32 = i := by
    rw [Nat.shiftRight_eq_div_pow, Nat.add_comm, Nat.mul_add_div hpos]
    rw [Nat.div_eq_of_lt (by omega), Nat.add_zero]
  simp only [CellChunkAlloc.new_using_alloc, CellChunkAlloc.chunk_index_to_key,
    CellChunkAlloc.key_to_chunk_index, CellChunkAlloc.cells_offset_key,
    CellChunkAlloc.chunks_offset_key, try_to_u64]
  rw [Nat.add_assoc, Nat.add_sub_cancel_left, if_pos h64]
  show some ((2 ^ 32 - 1 + 2 ^ 32 * i) >>> 32 % 2 ^ 32) = some i
  rw [hdiv, Nat.mod_eq_of_lt h]

theorem C1_chunk_roundtrip_witness :
    (5 : Nat) < 2 ^ 32 ∧
      (CellChunkAlloc.new_using_alloc 0).key_to_chunk_index
        ((CellChunkAlloc.new_using_alloc 0).chunk_index_to_key 5) = some 5 :=
  ⟨by decide, C1_chunk_roundtrip 0 5 (by decide)⟩

/-- C6: `dealloc key` fails with `KeyOutOfRange` when `key < cells_off`;
otherwise it takes the cell path exactly when `key < chunks_off` and the
chunk path when `chunks_off ≤ key` (so a key equal to `chunks_off` is
treated as a chunk key). -/
theorem C6_dealloc_classification (a : CellChunkAlloc) (key : Key) :
    (key < a.cells_off → a.dealloc key = Except.error AllocError.KeyOutOfRange) ∧
      (a.cells_off ≤ key → key < a.chunks_off →
        a.dealloc key = a.dealloc_cell key) ∧
      (a.cells_off ≤ key → a.chunks_off ≤ key →
        a.dealloc key = a.dealloc_chunk key) := by
  unfold CellChunkAlloc.dealloc CellChunkAlloc.cells_offset_key
    CellChunkAlloc.chunks_offset_key
  refine ⟨fun h => ?_, fun h1 h2 => ?_, fun h1 h2 => ?_⟩
  · rw [if_pos h]
  · rw [if_neg (Nat.not_lt.mpr h1), if_pos h2]
  · rw [if_neg (Nat.not_lt.mpr h1), if_neg (Nat.not_lt.mpr h2)]

theorem C6_dealloc_classification_witness :
    ((0 : Key) < (CellChunkAlloc.new_using_alloc 1).cells_off) ∧
      (((0 : Key) < (CellChunkAlloc.new_using_alloc 1).cells_off →
          (CellChunkAlloc.new_using_alloc 1).dealloc 0 =
            Except.error AllocError.KeyOutOfRange) ∧
        ((CellChunkAlloc.new_using_alloc 1).cells_off ≤ 0 →
          (0 : Key) < (CellChunkAlloc.new_using_alloc 1).chunks_off →
          (CellChunkAlloc.new_using_alloc 1).dealloc 0 =
            (CellChunkAlloc.new_using_alloc 1).dealloc_cell 0) ∧
        ((CellChunkAlloc.new_using_alloc 1).cells_off ≤ 0 →
          (CellChunkAlloc.new_using_alloc 1).chunks_off ≤ 0 →
          (CellChunkAlloc.new_using_alloc 1).dealloc 0 =
            (CellChunkAlloc.new_using_alloc 1).dealloc_chunk 0)) :=
  ⟨by decide, C6_dealloc_classification (CellChunkAlloc.new_using_alloc 1) 0⟩

/-- C10: every `alloc` and successful `dealloc` leaves `cells_off` and
`chunks_off` unchanged; a cell-path operation leaves the chunks stash
unchanged and a chunk-path operation leaves the cells stash unchanged. -/
theorem C10_frame (a : CellChunkAlloc) (size : Nat) (key : Key)
    (a2 : CellChunkAlloc) :
    ((a.alloc size).2.cells_off = a.cells_off ∧
        (a.alloc size).2.chunks_off = a.chunks_off) ∧
      (size ≤ 1 → (a.alloc size).2.chunks = a.chunks) ∧
      (1 < size → (a.alloc size).2.cells = a.cells) ∧
      (a.dealloc key = Except.ok a2 →
        a2.cells_off = a.cells_off ∧ a2.chunks_off = a.chunks_off ∧
          (key < a.chunks_off → a2.chunks = a.chunks) ∧
          (a.chunks_off ≤ key → a2.cells = a.cells)) := by
  refine ⟨?_, fun h => ?_, fun h => ?_, fun h => ?_⟩
  · by_cases h : size ≤ 1 <;>
      simp [CellChunkAlloc.alloc, CellChunkAlloc.alloc_cell,
        CellChunkAlloc.alloc_chunk, h]
  · simp [CellChunkAlloc.alloc, CellChunkAlloc.alloc_cell, h]
  · simp [CellChunkAlloc.alloc, CellChunkAlloc.alloc_chunk, Nat.not_le.mpr h]
  · obtain ⟨⟨fl, nf, occ⟩, ⟨fl2, nf2, occ2⟩, co, cho⟩ := a
    simp only [CellChunkAlloc.dealloc, CellChunkAlloc.dealloc_cell,
      CellChunkAlloc.dealloc_chunk, CellChunkAlloc.key_to_cell_index,
      CellChunkAlloc.key_to_chunk_index, CellChunkAlloc.cells_offset_key,
      CellChunkAlloc.chunks_offset_key, try_to_u32, try_to_u64, Stash.take] at h
    split at h
    · simp at h
    · rename_i h1
      split at h
      · rename_i h2
        split at h
        · simp at h
        · rename_i idx heq
          split at h
          · simp at h
          · rename_i s heq2
            simp only [Except.ok.injEq] at h
            subst h
            exact ⟨rfl, rfl, fun _ => rfl, fun hge => absurd h2 (Nat.not_lt.mpr hge)⟩
      · rename_i h2
        split at h
        · simp at h
        · rename_i idx heq
          split at h
          · simp at h
          · rename_i s heq2
            simp only [Except.ok.injEq] at h
            subst h
            exact ⟨rfl, rfl, fun hlt => absurd hlt h2, fun _ => rfl⟩

theorem C10_frame_witness :
    ((CellChunkAlloc.new_using_alloc 0).alloc 1).2.dealloc 0 =
        Except.ok ⟨⟨[0], 1, []⟩, Stash.new, 0, 2 ^ 32 - 1⟩ ∧
      (((((CellChunkAlloc.new_using_alloc 0).alloc 1).2.alloc 1).2.cells_off =
            ((CellChunkAlloc.new_using_alloc 0).alloc 1).2.cells_off ∧
          ((((CellChunkAlloc.new_using_alloc 0).alloc 1).2.alloc 1).2.chunks_off =
            ((CellChunkAlloc.new_using_alloc 0).alloc 1).2.chunks_off)) ∧
        ((1 : Nat) ≤ 1 →
          ((((CellChunkAlloc.new_using_alloc 0).alloc 1).2.alloc 1).2.chunks =
            ((CellChunkAlloc.new_using_alloc 0).alloc 1).2.chunks)) ∧
        (1 < 1 →
          ((((CellChunkAlloc.new_using_alloc 0).alloc 1).2.alloc 1).2.cells =
            ((CellChunkAlloc.new_using_alloc 0).alloc 1).2.cells)) ∧
        (((CellChunkAlloc.new_using_alloc 0).alloc 1).2.dealloc 0 =
            Except.ok ⟨⟨[0], 1, []⟩, Stash.new, 0, 2 ^ 32 - 1⟩ →
          (⟨⟨[0], 1, []⟩, Stash.new, 0, 2 ^ 32 - 1⟩ : CellChunkAlloc).cells_off =
              ((CellChunkAlloc.new_using_alloc 0).alloc 1).2.cells_off ∧
            (⟨⟨[0], 1, []⟩, Stash.new, 0, 2 ^ 32 - 1⟩ : CellChunkAlloc).chunks_off =
              ((CellChunkAlloc.new_using_alloc 0).alloc 1).2.chunks_off ∧
            ((0 : Key) < ((CellChunkAlloc.new_using_alloc 0).alloc 1).2.chunks_off →
              (⟨⟨[0], 1, []⟩, Stash.new, 0, 2 ^ 32 - 1⟩ : CellChunkAlloc).chunks =
                ((CellChunkAlloc.new_using_alloc 0).alloc 1).2.chunks) ∧
            (((CellChunkAlloc.new_using_alloc 0).alloc 1).2.chunks_off ≤ 0 →
              (⟨⟨[0], 1, []⟩, Stash.new, 0, 2 ^ 32 - 1⟩ : CellChunkAlloc).cells =
                ((CellChunkAlloc.new_using_alloc 0).alloc 1).2.cells))) :=
  ⟨rfl, C10_frame ((CellChunkAlloc.new_using_alloc 0).alloc 1).2 1 0
    ⟨⟨[0], 1, []⟩, Stash.new, 0, 2 ^ 32 - 1⟩⟩

/-- C8: whenever a `dealloc key` succeeds (in particular for a key
previously returned by `alloc`), immediately calling `dealloc` on the same
key again fails with `DoubleFreeOrUnknownKey`: the relevant stash's `take`
yields absent for the recovered index (the stashes are assumed free of
duplicate occupied indices, which holds in every reachable state). -/
theorem C8_double_free (a : CellChunkAlloc) (key : Key) (a2 : CellChunkAlloc)
    (hc : a.cells.occupied.Nodup) (hk : a.chunks.occupied.Nodup)
    (h : a.dealloc key = Except.ok a2) :
    a2.dealloc key = Except.error AllocError.DoubleFreeOrUnknownKey := by
  obtain ⟨⟨fl, nf, occ⟩, ⟨fl2, nf2, occ2⟩, co, cho⟩ := a
  simp only [CellChunkAlloc.dealloc, CellChunkAlloc.dealloc_cell,
    CellChunkAlloc.dealloc_chunk, CellChunkAlloc.key_to_cell_index,
    CellChunkAlloc.key_to_chunk_index, CellChunkAlloc.cells_offset_key,
    CellChunkAlloc.chunks_offset_key, try_to_u32, try_to_u64, Stash.take] at h
  split at h
  · simp at h
  · rename_i h1
    split at h
    · rename_i h2
      split at h
      · simp at h
      · rename_i idx heq
        split at h
        · simp at h
        · rename_i s heq2
          simp only [Except.ok.injEq] at h
          subst h
          split at heq
          · rename_i hlt
            simp only [Option.some.injEq] at heq
            subst heq
            split at heq2
            · rename_i hmem
              simp only [Option.some.injEq] at heq2
              subst heq2
              simp only [CellChunkAlloc.dealloc, CellChunkAlloc.dealloc_cell,
                CellChunkAlloc.dealloc_chunk, CellChunkAlloc.key_to_cell_index,
                CellChunkAlloc.key_to_chunk_index, CellChunkAlloc.cells_offset_key,
                CellChunkAlloc.chunks_offset_key, try_to_u32, try_to_u64, Stash.take,
                if_neg h1, if_pos h2, if_pos hlt]
              rw [if_neg (List.Nodup.not_mem_erase hc)]
            · simp at heq2
          · simp at heq
    · rename_i h2
      split at h
      · simp at h
      · rename_i idx heq
        split at h
        · simp at h
        · rename_i s heq2
          simp only [Except.ok.injEq] at h
          subst h
          split at heq
          · rename_i index2 heq3
            simp only [Option.some.injEq] at heq
            subst heq
            split at heq3
            · rename_i hlt
              simp only [Option.some.injEq] at heq3
              subst heq3
              split at heq2
              · rename_i hmem
                simp only [Option.some.injEq] at heq2
                subst heq2
                simp only [CellChunkAlloc.dealloc, CellChunkAlloc.dealloc_cell,
                  CellChunkAlloc.dealloc_chunk, CellChunkAlloc.key_to_cell_index,
                  CellChunkAlloc.key_to_chunk_index, CellChunkAlloc.cells_offset_key,
                  CellChunkAlloc.chunks_offset_key, try_to_u32, try_to_u64, Stash.take,
                  if_neg h1, if_neg h2, if_pos hlt]
                rw [if_neg (List.Nodup.not_mem_erase hk)]
              · simp at heq2
            · simp at heq3
          · simp at heq

theorem C8_double_free_witness :
    (((CellChunkAlloc.new_using_alloc 0).alloc 1).2.cells.occupied.Nodup ∧
        ((CellChunkAlloc.new_using_alloc 0).alloc 1).2.chunks.occupied.Nodup ∧
        ((CellChunkAlloc.new_using_alloc 0).alloc 1).2.dealloc 0 =
          Except.ok ⟨⟨[0], 1, []⟩, Stash.new, 0, 2 ^ 32 - 1⟩) ∧
      (⟨⟨[0], 1, []⟩, Stash.new, 0, 2 ^ 32 - 1⟩ : CellChunkAlloc).dealloc 0 =
        Except.error AllocError.DoubleFreeOrUnknownKey :=
  ⟨⟨by decide, by decide, rfl⟩,
    C8_double_free ((CellChunkAlloc.new_using_alloc 0).alloc 1).2 0
      ⟨⟨[0], 1, []⟩, Stash.new, 0, 2 ^ 32 - 1⟩ (by decide) (by decide) rfl⟩

theorem cellCount_cons (s : Nat) (rest : List Nat) :
    cellCount (s :: rest) = cellCount rest + (if s ≤ 1 then 1 else 0) := by
  by_cases hs : s ≤ 1 <;> simp [cellCount, List.countP_cons, hs]

theorem chunkCount_cons (s : Nat) (rest : List Nat) :
    chunkCount (s :: rest) = chunkCount rest + (if 1 < s then 1 else 0) := by
  by_cases hs : 1 < s <;> simp [chunkCount, List.countP_cons, hs]

theorem cellCount_replicate (n : Nat) : cellCount (List.replicate n 1) = n := by
  induction n with
  | zero => rfl
  | succ n ih => rw [List.replicate_succ, cellCount_cons, ih]; simp

theorem chunkCount_replicate (n : Nat) : chunkCount (List.replicate n 1) = 0 := by
  induction n with
  | zero => rfl
  | succ n ih => rw [List.replicate_succ, chunkCount_cons, ih]; simp

theorem range'_reverse_append (c n : Nat) (occ : List Nat) :
    (List.range' (c + 1) n).reverse ++ (c :: occ) =
      (List.range' c (n + 1)).reverse ++ occ := by
  rw [List.range'_succ c n 1, List.reverse_cons, List.append_assoc,
    List.singleton_append]

/-- Characterization of a dealloc-free run from a state with empty free
lists: the keys are `runKeys` and the final state advances the two fresh
counters by the respective request counts. -/
theorem allocRun_eq (B : Key) (sizes : List Nat) :
    ∀ (c d : Nat) (occ occ2 : List Nat),
      CellChunkAlloc.allocRun ⟨⟨[], c, occ⟩, ⟨[], d, occ2⟩, B, B + (2 ^ 32 - 1)⟩ sizes =
        (runKeys B c d sizes,
          ⟨⟨[], c + cellCount sizes, (List.range' c (cellCount sizes)).reverse ++ occ⟩,
            ⟨[], d + chunkCount sizes, (List.range' d (chunkCount sizes)).reverse ++ occ2⟩,
            B, B + (2 ^ 32 - 1)⟩) := by
  induction sizes with
  | nil =>
    intro c d occ occ2
    simp [CellChunkAlloc.allocRun, runKeys, cellCount, chunkCount]
  | cons s rest ih =>
    intro c d occ occ2
    by_cases hs : s ≤ 1
    · simp only [CellChunkAlloc.allocRun, CellChunkAlloc.alloc, if_pos hs,
        CellChunkAlloc.alloc_cell, Stash.put, CellChunkAlloc.cell_index_to_key,
        CellChunkAlloc.cells_offset_key, runKeys]
      rw [ih (c + 1) d (c :: occ) occ2]
      rw [cellCount_cons, chunkCount_cons, if_pos hs, if_neg (by omega : ¬ 1 < s)]
      rw [show c + (cellCount rest + 1) = c + 1 + cellCount rest from by omega]
      rw [range'_reverse_append]
      simp
    · simp only [CellChunkAlloc.allocRun, CellChunkAlloc.alloc, if_neg hs,
        CellChunkAlloc.alloc_chunk, Stash.put, CellChunkAlloc.chunk_index_to_key,
        CellChunkAlloc.chunks_offset_key, runKeys]
      rw [ih c (d + 1) occ (d :: occ2)]
      rw [cellCount_cons, chunkCount_cons, if_neg hs, if_pos (by omega : 1 < s)]
      rw [show d + (chunkCount rest + 1) = d + 1 + chunkCount rest from by omega]
      rw [range'_reverse_append]
      simp

/-- Every key of `runKeys` is either a cell key with index in the window of
fresh cell indices or a chunk key at or beyond the starting chunk index. -/
theorem mem_runKeys (B : Key) (sizes : List Nat) :
    ∀ (c d k : Nat), k ∈ runKeys B c d sizes →
      (∃ i, c ≤ i ∧ i < c + cellCount sizes ∧ k = B + i) ∨
        (∃ j, d ≤ j ∧ k = B + (2 ^ 32 - 1) + 2 ^ 32 * j) := by
  induction sizes with
  | nil => intro c d k hk; simp [runKeys] at hk
  | cons s rest ih =>
    intro c d k hk
    by_cases hs : s ≤ 1
    · have hcnt : cellCount (s :: rest) = cellCount rest + 1 := by
        rw [cellCount_cons, if_pos hs]
      simp only [runKeys, if_pos hs, List.mem_cons] at hk
      rcases hk with rfl | hk
      · exact Or.inl ⟨c, Nat.le_refl c, by omega, rfl⟩
      · rcases ih (c + 1) d k hk with ⟨i, hci, hib, rfl⟩ | hj
        · exact Or.inl ⟨i, by omega, by omega, rfl⟩
        · exact Or.inr hj
    · have hcnt : cellCount (s :: rest) = cellCount rest := by
        rw [cellCount_cons, if_neg hs, Nat.add_zero]
      simp only [runKeys, if_neg hs, List.mem_cons] at hk
      rcases hk with rfl | hk
      · exact Or.inr ⟨d, Nat.le_refl d, rfl⟩
      · rcases ih c (d + 1) k hk with ⟨i, hci, hib, rfl⟩ | ⟨j, hdj, rfl⟩
        · exact Or.inl ⟨i, hci, by omega, rfl⟩
        · exact Or.inr ⟨j, by omega, rfl⟩

/-- As long as the cell index window stays below `2^32 - 1`, all keys of a
run are pairwise distinct. -/
theorem pairwise_runKeys (B : Key) (sizes : List Nat) :
    ∀ (c d : Nat), c + cellCount sizes ≤ 2 ^ 32 - 1 →
      (runKeys B c d sizes).Pairwise Ne := by
  induction sizes with
  | nil => intro c d h; simp [runKeys]
  | cons s rest ih =>
    intro c d h
    by_cases hs : s ≤ 1
    · have hcnt : cellCount (s :: rest) = cellCount rest + 1 := by
        rw [cellCount_cons, if_pos hs]
      simp only [runKeys, if_pos hs]
      refine List.Pairwise.cons ?_ (ih (c + 1) d (by omega))
      intro k hk
      rcases mem_runKeys B rest (c + 1) d k hk with ⟨i, hci, hib, rfl⟩ | ⟨j, hdj, rfl⟩
      · exact fun heq => absurd (Nat.add_left_cancel heq) (by omega)
      · intro heq
        rw [Nat.add_assoc] at heq
        exact absurd (Nat.add_left_cancel heq) (by omega)
    · have hcnt : cellCount (s :: rest) = cellCount rest := by
        rw [cellCount_cons, if_neg hs, Nat.add_zero]
      simp only [runKeys, if_neg hs]
      refine List.Pairwise.cons ?_ (ih c (d + 1) (by omega))
      intro k hk
      rcases mem_runKeys B rest c (d + 1) k hk with ⟨i, hci, hib, rfl⟩ | ⟨j, hdj, rfl⟩
      · intro heq
        rw [Nat.add_assoc] at heq
        exact absurd (Nat.add_left_cancel heq) (by omega)
      · intro heq
        rw [Nat.add_assoc B (2 ^ 32 - 1) (2 ^ 32 * d),
          Nat.add_assoc B (2 ^ 32 - 1) (2 ^ 32 * j)] at heq
        exact absurd (Nat.add_left_cancel heq) (by omega)

theorem key_to_cell_index_add (a : CellChunkAlloc) (idx : Nat) (h : idx < 2 ^ 32) :
    a.key_to_cell_index (a.cells_off + idx) = some idx := by
  simp only [CellChunkAlloc.key_to_cell_index, CellChunkAlloc.cells_offset_key,
    try_to_u32, Nat.add_sub_cancel_left]
  rw [if_pos h]

theorem Stash.take_mem (s : Stash) (i : Nat) (h : i ∈ s.occupied) :
    s.take i = some ⟨i :: s.freeList, s.nextFresh, s.occupied.erase i⟩ := by
  unfold Stash.take
  rw [if_pos h]

theorem dealloc_cell_some (a : CellChunkAlloc) (key : Key) (idx : Nat)
    (h : a.key_to_cell_index key = some idx) :
    a.dealloc_cell key =
      (match a.cells.take idx with
        | none => Except.error AllocError.DoubleFreeOrUnknownKey
        | some s => Except.ok { a with cells := s }) := by
  unfold CellChunkAlloc.dealloc_cell
  rw [h]

/-- C7 (amended): in any state where the key handed out by `alloc 1` still
lies below `chunks_off` and within `2^32` of `cells_off`, the sequence
alloc-dealloc-alloc returns the same key: the freed index is reused before
any new index is minted. -/
theorem C7_recycling (a : CellChunkAlloc)
    (h1 : (a.alloc 1).1 < a.chunks_off)
    (h2 : (a.alloc 1).1 < a.cells_off + 2 ^ 32) :
    ∃ a2, (a.alloc 1).2.dealloc (a.alloc 1).1 = Except.ok a2 ∧
      (a2.alloc 1).1 = (a.alloc 1).1 := by
  obtain ⟨⟨fl, nf, occ⟩, CH, co, cho⟩ := a
  cases fl with
  | nil =>
    have h1a : co + nf < cho := h1
    have h2a : co + nf < co + 2 ^ 32 := h2
    have h2b : nf < 2 ^ 32 := Nat.lt_of_add_lt_add_left h2a
    refine ⟨⟨⟨[nf], nf + 1, occ⟩, CH, co, cho⟩, ?_, rfl⟩
    show CellChunkAlloc.dealloc ⟨⟨[], nf + 1, nf :: occ⟩, CH, co, cho⟩ (co + nf) = _
    simp only [CellChunkAlloc.dealloc, CellChunkAlloc.cells_offset_key,
      CellChunkAlloc.chunks_offset_key]
    rw [if_neg (Nat.not_lt.mpr (Nat.le_add_right co nf)), if_pos h1a]
    have hidx :
        CellChunkAlloc.key_to_cell_index ⟨⟨[], nf + 1, nf :: occ⟩, CH, co, cho⟩
          (co + nf) = some nf :=
      key_to_cell_index_add _ nf h2b
    rw [dealloc_cell_some _ _ nf hidx]
    have htake :
        (⟨⟨[], nf + 1, nf :: occ⟩, CH, co, cho⟩ : CellChunkAlloc).cells.take nf =
          some ⟨[nf], nf + 1, occ⟩ := by
      rw [Stash.take_mem _ nf (List.mem_cons_self nf occ), List.erase_cons_head]
    rw [htake]
  | cons i rest =>
    have h1a : co + i < cho := h1
    have h2a : co + i < co + 2 ^ 32 := h2
    have h2b : i < 2 ^ 32 := Nat.lt_of_add_lt_add_left h2a
    refine ⟨⟨⟨i :: rest, nf, occ⟩, CH, co, cho⟩, ?_, rfl⟩
    show CellChunkAlloc.dealloc ⟨⟨rest, nf, i :: occ⟩, CH, co, cho⟩ (co + i) = _
    simp only [CellChunkAlloc.dealloc, CellChunkAlloc.cells_offset_key,
      CellChunkAlloc.chunks_offset_key]
    rw [if_neg (Nat.not_lt.mpr (Nat.le_add_right co i)), if_pos h1a]
    have hidx :
        CellChunkAlloc.key_to_cell_index ⟨⟨rest, nf, i :: occ⟩, CH, co, cho⟩
          (co + i) = some i :=
      key_to_cell_index_add _ i h2b
    rw [dealloc_cell_some _ _ i hidx]
    have htake :
        (⟨⟨rest, nf, i :: occ⟩, CH, co, cho⟩ : CellChunkAlloc).cells.take i =
          some ⟨i :: rest, nf, occ⟩ := by
      rw [Stash.take_mem _ i (List.mem_cons_self i occ), List.erase_cons_head]
    rw [htake]

theorem C7_recycling_witness :
    ((CellChunkAlloc.new_using_alloc 0).alloc 1).1 <
        (CellChunkAlloc.new_using_alloc 0).chunks_off ∧
      ((CellChunkAlloc.new_using_alloc 0).alloc 1).1 <
        (CellChunkAlloc.new_using_alloc 0).cells_off + 2 ^ 32 ∧
      ∃ a2, ((CellChunkAlloc.new_using_alloc 0).alloc 1).2.dealloc
          ((CellChunkAlloc.new_using_alloc 0).alloc 1).1 = Except.ok a2 ∧
        (a2.alloc 1).1 = ((CellChunkAlloc.new_using_alloc 0).alloc 1).1 :=
  ⟨by decide, by decide,
    C7_recycling (CellChunkAlloc.new_using_alloc 0) (by decide) (by decide)⟩

theorem dealloc_chunk_some (a : CellChunkAlloc) (key : Key) (idx : Nat)
    (h : a.key_to_chunk_index key = some idx) :
    a.dealloc_chunk key =
      (match a.chunks.take idx with
        | none => Except.error AllocError.DoubleFreeOrUnknownKey
        | some s => Except.ok { a with chunks := s }) := by
  unfold CellChunkAlloc.dealloc_chunk
  rw [h]

theorem dealloc_chunk_none (a : CellChunkAlloc) (key : Key)
    (h : a.key_to_chunk_index key = none) :
    a.dealloc_chunk key = Except.error AllocError.IndexOverflow := by
  unfold CellChunkAlloc.dealloc_chunk
  rw [h]

/-- When a key classified to the chunk path hits an allocator whose chunk
stash occupies nothing, `dealloc` cannot succeed: either the index
downcast fails or the `take` finds the recovered index absent. -/
theorem chunk_path_dealloc_not_ok (CE : Stash) (fl2 : List Nat) (nf2 : Nat)
    (co cho key : Key) (a2 : CellChunkAlloc)
    (h1 : co ≤ key) (h2 : cho ≤ key) :
    (⟨CE, ⟨fl2, nf2, []⟩, co, cho⟩ : CellChunkAlloc).dealloc key ≠
      Except.ok a2 := by
  intro h
  simp only [CellChunkAlloc.dealloc, CellChunkAlloc.cells_offset_key,
    CellChunkAlloc.chunks_offset_key] at h
  rw [if_neg (Nat.not_lt.mpr h1), if_neg (Nat.not_lt.mpr h2)] at h
  cases hidx : (⟨CE, ⟨fl2, nf2, []⟩, co, cho⟩ : CellChunkAlloc).key_to_chunk_index key with
  | none =>
    rw [dealloc_chunk_none _ key hidx] at h
    exact Except.noConfusion h
  | some idx =>
    rw [dealloc_chunk_some _ key idx hidx] at h
    have htake :
        (⟨CE, ⟨fl2, nf2, []⟩, co, cho⟩ : CellChunkAlloc).chunks.take idx = none := by
      unfold Stash.take
      rw [if_neg (List.not_mem_nil idx)]
    rw [htake] at h
    exact Except.noConfusion h

/-- C7 counterexample: starting from the freshly constructed allocator and
performing `2^32 - 1` cell allocations, the next `alloc 1` returns the key
`chunks_off`; `dealloc` of that key fails (it is routed to the chunk path),
so the claimed recycling round trip does not hold in every state. -/
theorem C7_recycling_counterexample :
    ¬ (∃ a2,
        (((CellChunkAlloc.new_using_alloc 0).allocRun
              (List.replicate (2 ^ 32 - 1) 1)).2.alloc 1).2.dealloc
            ((((CellChunkAlloc.new_using_alloc 0).allocRun
              (List.replicate (2 ^ 32 - 1) 1)).2.alloc 1).1) = Except.ok a2 ∧
        (a2.alloc 1).1 =
          (((CellChunkAlloc.new_using_alloc 0).allocRun
              (List.replicate (2 ^ 32 - 1) 1)).2.alloc 1).1) := by
  rintro ⟨a2, hok, -⟩
  rw [show CellChunkAlloc.new_using_alloc 0 =
      ⟨⟨[], 0, []⟩, ⟨[], 0, []⟩, 0, 0 + (2 ^ 32 - 1)⟩ from rfl] at hok
  rw [allocRun_eq 0 (List.replicate (2 ^ 32 - 1) 1) 0 0 [] []] at hok
  rw [cellCount_replicate, chunkCount_replicate] at hok
  exact chunk_path_dealloc_not_ok _ _ _ _ _ _ a2 (Nat.zero_le _) (Nat.le_refl _) hok

/-- C3 (amended): starting from a freshly constructed allocator, all keys
returned by a dealloc-free run of `alloc` requests are pairwise distinct,
provided the run contains at most `2^32 - 1` cell-sized requests. -/
theorem C3_uniqueness (B : Key) (sizes : List Nat)
    (h : cellCount sizes ≤ 2 ^ 32 - 1) :
    ((CellChunkAlloc.new_using_alloc B).allocRun sizes).1.Pairwise Ne := by
  rw [show CellChunkAlloc.new_using_alloc B =
      ⟨⟨[], 0, []⟩, ⟨[], 0, []⟩, B, B + (2 ^ 32 - 1)⟩ from rfl,
    allocRun_eq B sizes 0 0 [] []]
  exact pairwise_runKeys B sizes 0 0 (by omega)

theorem C3_uniqueness_witness :
    cellCount [1, 2, 1] ≤ 2 ^ 32 - 1 ∧
      ((CellChunkAlloc.new_using_alloc 0).allocRun [1, 2, 1]).1.Pairwise Ne :=
  ⟨by decide, C3_uniqueness 0 [1, 2, 1] (by decide)⟩

theorem runKeys_replicate (B : Key) (n : Nat) :
    ∀ (c d : Nat) (l : List Nat),
      runKeys B c d (List.replicate n 1 ++ l) =
        (List.range' c n).map (fun i => B + i) ++ runKeys B (c + n) d l := by
  induction n with
  | zero => intro c d l; simp
  | succ n ih =>
    intro c d l
    rw [List.replicate_succ, List.cons_append]
    simp only [runKeys, if_pos (by omega : (1 : Nat) ≤ 1)]
    rw [ih (c + 1) d l, List.range'_succ c n 1]
    simp only [List.map_cons, List.cons_append]
    rw [show c + 1 + n = c + (n + 1) from by omega]

/-- C3 counterexample: with the constructed offsets, a run of `2^32` cell
allocations followed by one chunk allocation repeats a key: the last cell
key `cells_off + (2^32 - 1)` equals the first chunk key `chunks_off`, so
the returned keys are not pairwise distinct. -/
theorem C3_counterexample :
    ¬ ((CellChunkAlloc.new_using_alloc 0).allocRun
        (List.replicate (2 ^ 32) 1 ++ [2])).1.Pairwise Ne := by
  rw [show CellChunkAlloc.new_using_alloc 0 =
      ⟨⟨[], 0, []⟩, ⟨[], 0, []⟩, 0, 0 + (2 ^ 32 - 1)⟩ from rfl,
    allocRun_eq 0 (List.replicate (2 ^ 32) 1 ++ [2]) 0 0 [] []]
  intro hp
  rw [runKeys_replicate 0 (2 ^ 32) 0 0 [2]] at hp
  replace hp : ((List.range' 0 (2 ^ 32)).map (fun i => (0 : Key) + i) ++
      runKeys 0 (0 + 2 ^ 32) 0 [2]).Pairwise Ne := hp
  rw [List.pairwise_append] at hp
  obtain ⟨-, -, hcross⟩ := hp
  have hmem : (0 : Key) + (2 ^ 32 - 1) ∈
      (List.range' 0 (2 ^ 32)).map (fun i => (0 : Key) + i) :=
    List.mem_map.mpr ⟨2 ^ 32 - 1, List.mem_range'_1.mpr (by omega), rfl⟩
  have hmem2 : (0 : Key) + (2 ^ 32 - 1) + 2 ^ 32 * 0 ∈
      runKeys 0 (0 + 2 ^ 32) 0 [2] := by
    simp only [runKeys, if_neg (by omega : ¬ (2 : Nat) ≤ 1)]
    exact List.mem_cons_self _ _
  exact hcross _ hmem _ hmem2 (by decide)
